import Mathlib

/-!
Shallow embedding of the signal-detection core of the nifty-750 trading
strategy repository: the `Signal` data class and shared validation
(`src/strategies/base.py`), the two concrete pattern strategies
(`src/strategies/patterns.py`), the scanner with deduplication and the
filter/ranker (`src/strategies/signals.py`), the RSI computation
(`src/indicators.py`) and the buy-and-hold backtester
(`src/backtester.py`).  Prices, volumes and confidences are embedded as
exact rationals; pandas special float values (NaN, infinity), which the RSI
pipeline can produce, are embedded by the dedicated type `FV`.
-/

namespace Nifty

/-- A timestamp: a calendar day plus a time-of-day component.  `day` models
`datetime.date()`, the key pandas `Timestamp.date()` dedup uses. -/
structure DT where
  day : Nat
  tod : Nat
deriving DecidableEq, Repr

/-- Ordering on timestamps: lexicographic on (day, time-of-day), as pandas
compares Timestamps. -/
def dtLeP (a b : DT) : Prop :=
  a.day < b.day ∨ (a.day = b.day ∧ a.tod ≤ b.tod)

instance : DecidableRel dtLeP := fun a b => by unfold dtLeP; exact inferInstance

/-- The `Signal` dataclass of `src/strategies/base.py` (lines 9-22).
`riskReward` stores the value `__post_init__` leaves in `risk_reward`;
construction goes through `mkSignal`, which performs the `__post_init__`
computation. -/
structure Signal where
  date : DT
  symbol : String
  setup : String
  side : String
  entry : ℚ
  stop : ℚ
  target : ℚ
  confidence : ℚ
  volumeRatio : Option ℚ
  atr : Option ℚ
  riskReward : ℚ
deriving DecidableEq, Repr

/-- The risk/reward formula of `Signal.__post_init__`
(`src/strategies/base.py` lines 24-34): side-specific risk and reward,
ratio `reward / risk` when `risk > 0`, else `0`. -/
def signalRiskReward (side : String) (entry stop target : ℚ) : ℚ :=
  if side = "BUY" then
    let risk := |entry - stop|
    let reward := |target - entry|
    if risk > 0 then reward / risk else 0
  else
    let risk := |stop - entry|
    let reward := |entry - target|
    if risk > 0 then reward / risk else 0

/-- Constructing a `Signal`: the dataclass constructor followed by
`__post_init__`.  When `riskReward0 = none` (the `risk_reward=None`
default, used at every construction site in the repository) the ratio is
computed from entry/stop/target; an explicitly passed value is kept. -/
def mkSignal (date : DT) (symbol setup side : String)
    (entry stop target confidence : ℚ)
    (volumeRatio atr : Option ℚ) (riskReward0 : Option ℚ) : Signal :=
  { date := date, symbol := symbol, setup := setup, side := side,
    entry := entry, stop := stop, target := target, confidence := confidence,
    volumeRatio := volumeRatio, atr := atr,
    riskReward := riskReward0.getD (signalRiskReward side entry stop target) }

/-- `BaseStrategy.validate_signal` (`src/strategies/base.py` lines 64-86).
`minRiskReward` is the strategy's `self.min_risk_reward`; both shipped
strategies keep the default `2.0`. -/
def validateSignal (minRiskReward : ℚ) (s : Signal) : Bool :=
  if s.riskReward < minRiskReward then false
  else if s.side = "BUY" then
    if s.target ≤ s.entry ∨ s.stop ≥ s.entry then false
    else if s.confidence < 0.3 then false
    else true
  else
    if s.target ≥ s.entry ∨ s.stop ≤ s.entry then false
    else if s.confidence < 0.3 then false
    else true

/-! ### The data frame and small list helpers -/

/-- Python slice `l[a:b]` (as `iloc[a:b]` slices a column). -/
def slice (l : List ℚ) (a b : Nat) : List ℚ := (l.take b).drop a

/-- pandas `.mean()` of a column slice.  For the empty slice pandas yields
NaN, and every call site guards the result with a `> 0` comparison, which
NaN fails just as the `0` returned here does. -/
def listMean (l : List ℚ) : ℚ := l.sum / (l.length : ℚ)

/-- pandas `.max()` of a slice (all call sites pass non-empty slices). -/
def listMax (l : List ℚ) : ℚ :=
  match l with
  | [] => 0
  | x :: xs => xs.foldl max x

/-- pandas `.min()` of a slice (all call sites pass non-empty slices). -/
def listMin (l : List ℚ) : ℚ :=
  match l with
  | [] => 0
  | x :: xs => xs.foldl min x

/-- A pandas DataFrame as the strategies see it: a date index plus the
OHLCV and EMA columns the scanned code reads.  A `none` column models
`'col' not in df.columns`. -/
structure DF where
  index : List DT
  close : Option (List ℚ)
  high : Option (List ℚ)
  low : Option (List ℚ)
  volume : Option (List ℚ)
  ema50 : Option (List ℚ)
  ema200 : Option (List ℚ)
deriving DecidableEq, Repr

/-- `len(df)`. -/
def DF.len (df : DF) : Nat := df.index.length

/-- `BaseStrategy.calculate_volume_confidence` (`src/strategies/base.py`
lines 88-115): neutral `0.5` when `index < 20` or the `Volume` column is
missing; otherwise tiered by `current_volume / mean(volume[index-20:index])`,
capped at `1.0`. -/
def calculateVolumeConfidence (df : DF) (i : Nat) : ℚ :=
  if i < 20 ∨ df.volume = none then 0.5
  else
    let vol := df.volume.getD []
    let currentVolume := vol.getD i 0
    let avgVolume := listMean (slice vol (i - 20) i)
    let ratio := if avgVolume > 0 then currentVolume / avgVolume else 1
    let confidence : ℚ :=
      if ratio ≥ 2 then 0.9
      else if ratio ≥ 1.5 then 0.8
      else if ratio ≥ 1.2 then 0.7
      else if ratio ≥ 0.8 then 0.6
      else 0.4
    min confidence 1

/-! ### Concrete strategies (`src/strategies/patterns.py`) -/

/-- The weight `1 - alpha` of pandas `ewm(span=s)`, `alpha = 2/(s+1)`. -/
def ewmWeight (span : Nat) : ℚ := 1 - 2 / ((span : ℚ) + 1)

/-- pandas `Series.ewm(span=s).mean()` with the default `adjust=True`:
`y[i] = (Σ_j w^j x[i-j]) / (Σ_j w^j)` over `j = 0..i`. -/
def ewmMean (span : Nat) (xs : List ℚ) : List ℚ :=
  (List.range xs.length).map fun i =>
    (((List.range (i + 1)).map fun j => ewmWeight span ^ j * xs.getD (i - j) 0).sum) /
    (((List.range (i + 1)).map fun j => ewmWeight span ^ j).sum)

/-- The golden-cross trigger at bar `i`
(`src/strategies/patterns.py` lines 32-33):
`ema_50[i] > ema_200[i]` and `ema_50[i-1] <= ema_200[i-1]`. -/
def goldenCrossAt (ema50v ema200v : List ℚ) (i : Nat) : Bool :=
  decide (ema50v.getD i 0 > ema200v.getD i 0 ∧
    ema50v.getD (i - 1) 0 ≤ ema200v.getD (i - 1) 0)

/-- Bars at which `GoldenCrossStrategy.scan`'s loop
(`for i in range(200, len(df))`) fires: `200 ≤ i < len` with the
golden-cross trigger. -/
def goldenEvents (df : DF) : List Nat :=
  (List.range df.len).filter fun i =>
    decide (200 ≤ i) && goldenCrossAt (df.ema50.getD []) (df.ema200.getD []) i

/-- The candidate `Signal` `GoldenCrossStrategy.scan` builds at bar `i`
(`src/strategies/patterns.py` lines 35-56): entry `close[i]`,
stop `ema_50[i] * 0.95`, target `entry * 1.15`, confidence
volume-confidence plus `0.2` above the 200-EMA, capped at `1.0`. -/
def goldenCandidate (df : DF) (symbol : String) (i : Nat) : Signal :=
  let closes := df.close.getD []
  let currentPrice := closes.getD i 0
  let stopLoss := (df.ema50.getD []).getD i 0 * 0.95
  let target := currentPrice * 1.15
  let c0 := calculateVolumeConfidence df i
  let confidence :=
    if currentPrice > (df.ema200.getD []).getD i 0 then c0 + 0.2 else c0
  mkSignal (df.index.getD i ⟨0, 0⟩) symbol "Golden_Cross" "BUY"
    currentPrice stopLoss target (min confidence 1) none none none

/-- Lines 25-28 of `GoldenCrossStrategy.scan`: `df['ema_50'] = ...` /
`df['ema_200'] = ...` when the column is absent — pandas column assignment
mutates the caller's frame. -/
def goldenFrame (df : DF) : DF :=
  let df1 :=
    if df.ema50 = none then
      { df with ema50 := some (ewmMean 50 (df.close.getD [])) }
    else df
  if df1.ema200 = none then
    { df1 with ema200 := some (ewmMean 200 (df1.close.getD [])) }
  else df1

/-- `GoldenCrossStrategy.scan` (`src/strategies/patterns.py` lines 16-64).
Returns the data frame as the caller sees it afterwards together with the
signal list: when `ema_50`/`ema_200` are absent the returned frame has
them added. -/
def goldenCrossScan (df : DF) (symbol : String) : DF × List Signal :=
  if df.close = none ∨ df.len < 200 then (df, [])
  else
    (goldenFrame df,
      ((goldenEvents (goldenFrame df)).map
        (goldenCandidate (goldenFrame df) symbol)).filter (validateSignal 2))

/-- The breakout trigger at bar `i`
(`src/strategies/patterns.py` lines 81-85):
`close[i] > max(high[i-20:i]) * 1.01` (lookback 20). -/
def breakoutAt (df : DF) (i : Nat) : Bool :=
  decide ((df.close.getD []).getD i 0 >
    listMax (slice (df.high.getD []) (i - 20) i) * 1.01)

/-- The candidate `Signal` `SimpleBreakoutStrategy.scan` builds at bar `i`
(`src/strategies/patterns.py` lines 86-100): entry `close[i]`, stop
`min(low[i-10:i]) * 0.98`, target `entry + (entry - stop) * 2`. -/
def breakoutCandidate (df : DF) (symbol : String) (i : Nat) : Signal :=
  let currentPrice := (df.close.getD []).getD i 0
  let stopLoss := listMin (slice (df.low.getD []) (i - 10) i) * 0.98
  let target := currentPrice + (currentPrice - stopLoss) * 2
  mkSignal (df.index.getD i ⟨0, 0⟩) symbol "Simple_Breakout" "BUY"
    currentPrice stopLoss target (calculateVolumeConfidence df i) none none none

/-- Bars at which `SimpleBreakoutStrategy.scan`'s loop
(`for i in range(20, len(df))`) fires. -/
def breakoutEvents (df : DF) : List Nat :=
  (List.range df.len).filter fun i => decide (20 ≤ i) && breakoutAt df i

/-- `SimpleBreakoutStrategy.scan` (`src/strategies/patterns.py` lines
72-108): empty for fewer than `2 * lookback = 40` bars; a missing
Close/High/Low column raises on the first loop iteration, is caught, and
yields the empty list. -/
def breakoutScan (df : DF) (symbol : String) : List Signal :=
  if df.len < 40 then []
  else if df.close = none ∨ df.high = none ∨ df.low = none then []
  else ((breakoutEvents df).map (breakoutCandidate df symbol)).filter
    (validateSignal 2)

/-! ### Scanner (`src/strategies/signals.py`) -/

/-- The dedup key of `StrategyScanner.scan_single_stock` (line 45):
`(signal.symbol, signal.setup, signal.date.date())`. -/
def keyOf (s : Signal) : String × String × Nat := (s.symbol, s.setup, s.date.day)

/-- The dedup loop of `scan_single_stock` (lines 41-48): walk the list,
keep a signal when its key is not in `seen`, recording kept keys. -/
def dedupAux : List Signal → List (String × String × Nat) → List Signal
  | [], _ => []
  | s :: rest, seen =>
    if keyOf s ∈ seen then dedupAux rest seen
    else s :: dedupAux rest (keyOf s :: seen)

/-- Deduplication as `scan_single_stock` performs it, starting from an
empty `seen` set. -/
def dedupSignals (l : List Signal) : List Signal := dedupAux l []

/-- Python `str.replace('.NS', '')`: drop every left-to-right,
non-overlapping occurrence of `".NS"`. -/
def replaceNS : List Char → List Char
  | '.' :: 'N' :: 'S' :: rest => replaceNS rest
  | c :: rest => c :: replaceNS rest
  | [] => []

/-- Python `str.upper()` (ticker symbols are ASCII). -/
def upperChar (c : Char) : Char :=
  if 'a' ≤ c ∧ c ≤ 'z' then Char.ofNat (c.toNat - 32) else c

/-- Symbol cleaning of `scan_single_stock` (line 27):
`symbol.replace('.NS', '').upper()`. -/
def cleanSymbol (s : String) : String := ⟨(replaceNS s.data).map upperChar⟩

/-- `StrategyScanner.scan_single_stock` (lines 22-51): run the
`ALL_STRATEGIES` registry (GoldenCross then SimpleBreakout) on the frame,
concatenate, deduplicate.  GoldenCross may add EMA columns to the shared
frame, which SimpleBreakout then receives. -/
def scanSingleStock (df : DF) (symbol : String) : List Signal :=
  let cleanSym := cleanSymbol symbol
  let gres := goldenCrossScan df cleanSym
  let b := breakoutScan gres.1 cleanSym
  dedupSignals (gres.2 ++ b)

/-- `list.sort(key=lambda s: s.date, reverse=True)`: `s` may precede `t`
iff `t.date ≤ s.date`.  Python's sort is stable; `List.insertionSort` is
the stable sort of this development, so the two agree as functions. -/
def dateDesc (s t : Signal) : Prop := dtLeP t.date s.date

instance : DecidableRel dateDesc := fun s t => by
  unfold dateDesc; exact inferInstance

/-- `StrategyScanner.scan_multiple_stocks` (lines 53-86).  The argument
lists the per-asset inputs in the order their futures complete; the merged
list is their concatenation in that order, then
`all_signals.sort(key=lambda s: s.date, reverse=True)` — a stable
descending sort by date only. -/
def scanMultipleStocks (completionOrder : List (String × DF)) : List Signal :=
  List.insertionSort dateDesc
    ((completionOrder.map fun p => scanSingleStock p.2 p.1).flatten)

/-- Python sort key `(confidence, risk_reward)` with `reverse=True`:
`s` may precede `t` iff `(t.confidence, t.riskReward)` is lexicographically
at most `(s.confidence, s.riskReward)`. -/
def confRRDesc (s t : Signal) : Prop :=
  t.confidence < s.confidence ∨
    (t.confidence = s.confidence ∧ t.riskReward ≤ s.riskReward)

instance : DecidableRel confRRDesc := fun s t => by
  unfold confRRDesc; exact inferInstance

/-- Python sort key `confidence` with `reverse=True`. -/
def confDesc (s t : Signal) : Prop := t.confidence ≤ s.confidence

instance : DecidableRel confDesc := fun s t => by
  unfold confDesc; exact inferInstance

/-- One step of the symbol-grouping loop of `filter_signals` (lines
100-104): append to the symbol's bucket, creating it (at the end, in dict
insertion order) when absent. -/
def insertGroup (acc : List (String × List Signal)) (s : Signal) :
    List (String × List Signal) :=
  if acc.any fun p => p.1 = s.symbol then
    acc.map fun p => if p.1 = s.symbol then (p.1, p.2 ++ [s]) else p
  else acc ++ [(s.symbol, [s])]

/-- The `symbol_groups` dict of `filter_signals`, as an insertion-ordered
association list. -/
def groupBySymbol (l : List Signal) : List (String × List Signal) :=
  l.foldl insertGroup []

/-- `StrategyScanner.filter_signals` (lines 88-117): quality filter, group
by symbol, stable sort each group by (confidence, risk/reward) descending
and keep the top `maxPerStock`, concatenate, stable sort by confidence
descending. -/
def filterSignals (signals : List Signal) (minConfidence minRiskReward : ℚ)
    (maxPerStock : Nat) : List Signal :=
  let quality := signals.filter fun s =>
    decide (s.confidence ≥ minConfidence ∧ s.riskReward ≥ minRiskReward)
  let final := ((groupBySymbol quality).map fun p =>
    (List.insertionSort confRRDesc p.2).take maxPerStock).flatten
  List.insertionSort confDesc final

/-! ### RSI (`src/indicators.py` lines 28-33)

pandas computes over IEEE floats, where `x / 0 = ±inf` for `x ≠ 0`,
`0 / 0 = NaN`, and no division ever raises.  All values reached by the RSI
pipeline are exact decimals, so the embedding uses rationals extended with
the two special values actually produced: NaN and the infinities. -/

/-- A pandas float cell: finite (exact rational), NaN, or ±infinity. -/
inductive FV where
  | nan : FV
  | inf : FV
  | ninf : FV
  | fin : ℚ → FV
deriving DecidableEq, Repr

/-- IEEE addition on the values the RSI pipeline reaches. -/
def fvAdd : FV → FV → FV
  | FV.nan, _ => FV.nan
  | _, FV.nan => FV.nan
  | FV.inf, FV.ninf => FV.nan
  | FV.ninf, FV.inf => FV.nan
  | FV.inf, _ => FV.inf
  | _, FV.inf => FV.inf
  | FV.ninf, _ => FV.ninf
  | _, FV.ninf => FV.ninf
  | FV.fin a, FV.fin b => FV.fin (a + b)

/-- IEEE subtraction on the values the RSI pipeline reaches. -/
def fvSub : FV → FV → FV
  | FV.nan, _ => FV.nan
  | _, FV.nan => FV.nan
  | FV.inf, FV.inf => FV.nan
  | FV.ninf, FV.ninf => FV.nan
  | FV.inf, _ => FV.inf
  | FV.ninf, _ => FV.ninf
  | FV.fin _, FV.inf => FV.ninf
  | FV.fin _, FV.ninf => FV.inf
  | FV.fin a, FV.fin b => FV.fin (a - b)

/-- IEEE division on the values the RSI pipeline reaches: `q / 0` is
`±inf` for `q ≠ 0` and NaN for `q = 0`; a finite value over an infinity
is `0`.  No case raises. -/
def fvDiv : FV → FV → FV
  | FV.nan, _ => FV.nan
  | _, FV.nan => FV.nan
  | FV.inf, FV.inf => FV.nan
  | FV.inf, FV.ninf => FV.nan
  | FV.ninf, FV.inf => FV.nan
  | FV.ninf, FV.ninf => FV.nan
  | FV.inf, FV.fin b => if b < 0 then FV.ninf else FV.inf
  | FV.ninf, FV.fin b => if b < 0 then FV.inf else FV.ninf
  | FV.fin _, FV.inf => FV.fin 0
  | FV.fin _, FV.ninf => FV.fin 0
  | FV.fin a, FV.fin b =>
    if b = 0 then
      if a > 0 then FV.inf else if a < 0 then FV.ninf else FV.nan
    else FV.fin (a / b)

/-- `data['Close'].diff()`: NaN at index 0, else `close[i] - close[i-1]`. -/
def closeDelta (closes : List ℚ) : List FV :=
  (List.range closes.length).map fun i =>
    if i = 0 then FV.nan else FV.fin (closes.getD i 0 - closes.getD (i - 1) 0)

/-- `delta.where(delta > 0, 0)`: keep a positive finite delta, replace
everything else (non-positive or NaN — NaN fails the comparison) by `0`. -/
def gainCell : FV → ℚ
  | FV.fin q => if 0 < q then q else 0
  | FV.nan => 0
  | FV.inf => 0
  | FV.ninf => 0

/-- `-delta.where(delta < 0, 0)`: the magnitude of a negative finite
delta, `0` otherwise. -/
def lossCell : FV → ℚ
  | FV.fin q => if q < 0 then -q else 0
  | FV.nan => 0
  | FV.inf => 0
  | FV.ninf => 0

/-- `.rolling(window=w).mean()` over a NaN-free column: NaN until the
window fills (`i + 1 < w`), then the mean of `xs[i+1-w : i+1]`. -/
def rollingMean (w : Nat) (xs : List ℚ) : List FV :=
  (List.range xs.length).map fun i =>
    if i + 1 < w then FV.nan
    else FV.fin (listMean (slice xs (i + 1 - w) (i + 1)))

/-- The 14-bar average-gain series `gain` of `add_common_indicators`. -/
def gainSeries (closes : List ℚ) : List FV :=
  rollingMean 14 ((closeDelta closes).map gainCell)

/-- The 14-bar average-loss series `loss` of `add_common_indicators`. -/
def lossSeries (closes : List ℚ) : List FV :=
  rollingMean 14 ((closeDelta closes).map lossCell)

/-- `rs = gain / loss` (elementwise). -/
def rsSeries (closes : List ℚ) : List FV :=
  List.zipWith fvDiv (gainSeries closes) (lossSeries closes)

/-- `data['rsi'] = 100 - (100 / (1 + rs))` (elementwise). -/
def rsiSeries (closes : List ℚ) : List FV :=
  (rsSeries closes).map fun r =>
    fvSub (FV.fin 100) (fvDiv (FV.fin 100) (fvAdd (FV.fin 1) r))

/-! ### Backtester (`src/backtester.py`) -/

/-- The rational-valued fields of the metrics dict built by
`calculate_simple_returns` (lines 15-36).  `Sharpe Ratio` and the
annualized quantities it divides are real-power/square-root expressions in
these fields (`(1 + totalReturn/100) ** (1/periodYears)` and
`sqrt(returnsVariance * 252) * 100`) and stay outside the rational
embedding; no claim inspects them. -/
structure BHMetrics where
  totalReturn : ℚ
  periodYears : ℚ
  maxDrawdown : ℚ
  returnsVariance : ℚ
deriving DecidableEq, Repr

/-- Python `round(q, 2)` on an exact value (to the nearest hundredth). -/
def round2 (q : ℚ) : ℚ := (round (q * 100) : ℤ) / 100

/-- `df['Close'].pct_change().dropna()`: day-over-day relative change. -/
def pctChanges (closes : List ℚ) : List ℚ :=
  (List.range (closes.length - 1)).map fun i =>
    (closes.getD (i + 1) 0 - closes.getD i 0) / closes.getD i 0

/-- pandas sample variance (`ddof = 1`) of a list. -/
def sampleVariance (l : List ℚ) : ℚ :=
  let m := listMean l
  (l.map fun x => (x - m) ^ 2).sum / ((l.length : ℚ) - 1)

/-- `(close[t] - running_peak[t]) / running_peak[t]`, elementwise. -/
def drawdowns (closes : List ℚ) : List ℚ :=
  (List.range closes.length).map fun i =>
    let peak := listMax (slice closes 0 (i + 1))
    (closes.getD i 0 - peak) / peak

/-- `calculate_simple_returns` (`src/backtester.py` lines 9-40): `none`
models the empty dict `{}`.  The guard `df.empty or len(df) < 2` returns
`{}`; a missing Close column raises inside the `try` and is caught,
likewise yielding `{}`.  No error escapes the function. -/
def calculateSimpleReturns (df : DF) : Option BHMetrics :=
  if df.len < 2 ∨ df.close = none then none
  else
    let closes := df.close.getD []
    let startPrice := closes.getD 0 0
    let endPrice := closes.getD (closes.length - 1) 0
    let totalReturn := (endPrice - startPrice) / startPrice * 100
    let years := (df.len : ℚ) / 252
    let maxDrawdown := listMin (drawdowns closes) * 100
    some { totalReturn := round2 totalReturn,
           periodYears := round2 years,
           maxDrawdown := round2 |maxDrawdown|,
           returnsVariance := sampleVariance (pctChanges closes) }

/-! ### Spec-worded deduplication, for the refinement comparison -/

/-- The spec's words for the scanner dedup: "Deduplicate collected signals
by key (asset_symbol, setup_name, calendar_day_of(timestamp)), keeping the
first occurrence in discovery order."  Keep the head, drop every later
signal sharing its key, recurse. -/
def keepFirst : List Signal → List Signal
  | [] => []
  | s :: rest =>
    s :: keepFirst (rest.filter fun t => keyOf t ≠ keyOf s)
termination_by l => l.length
decreasing_by
  simp only [List.length_cons]
  exact Nat.lt_succ_of_le (List.length_filter_le _ _)

/-! ### Concrete frames used as test inputs -/

/-- A 40-bar frame: flat at 100 with a breakout close of 150 on the last
bar, flat volume.  `SimpleBreakoutStrategy` accepts exactly one signal on
it; `GoldenCrossStrategy` is inert (fewer than 200 bars). -/
def dfBreak : DF :=
  { index := (List.range 40).map fun i => ⟨i, 0⟩,
    close := some ((List.replicate 39 (100 : ℚ)) ++ [150]),
    high := some (List.replicate 40 (100 : ℚ)),
    low := some (List.replicate 40 (100 : ℚ)),
    volume := some (List.replicate 40 (1000 : ℚ)),
    ema50 := none, ema200 := none }

/-- The one signal the scanner emits on `dfBreak`: entry 150, stop
`100 * 0.98 = 98`, target `150 + (150 - 98) * 2 = 254`, volume confidence
`0.6` (flat volume, ratio 1), risk/reward exactly 2. -/
def sigBreak : Signal :=
  { date := ⟨39, 0⟩, symbol := "TCS", setup := "Simple_Breakout",
    side := "BUY", entry := 150, stop := 98, target := 254,
    confidence := 3/5, volumeRatio := none, atr := none, riskReward := 2 }

/-- A 200-bar frame with a Close column and no EMA columns: the exact
shape on which `GoldenCrossStrategy.scan` writes `ema_50`/`ema_200` into
the caller's frame. -/
def df200 : DF :=
  { index := (List.range 200).map fun i => ⟨i, 0⟩,
    close := some (List.replicate 200 (100 : ℚ)),
    high := none, low := none, volume := none,
    ema50 := none, ema200 := none }

/-- A 201-bar enriched frame whose EMA columns cross upward exactly at bar
200: `ema_50` is 1 until bar 199 and 3 at bar 200, `ema_200` is constantly
2. -/
def dfGolden : DF :=
  { index := (List.range 201).map fun i => ⟨i, 0⟩,
    close := some (List.replicate 201 (100 : ℚ)),
    high := some (List.replicate 201 (100 : ℚ)),
    low := some (List.replicate 201 (100 : ℚ)),
    volume := some (List.replicate 201 (1000 : ℚ)),
    ema50 := some ((List.replicate 200 (1 : ℚ)) ++ [3]),
    ema200 := some (List.replicate 201 (2 : ℚ)) }

/-- A bare signal for symbol A with confidence `0.5` and risk/reward 2. -/
def sigA : Signal := mkSignal ⟨1, 0⟩ "A" "S" "BUY" 100 90 120 (1/2) none none none

/-- Same prices and confidence as `sigA`, for symbol B: a ranking tie. -/
def sigB : Signal := mkSignal ⟨1, 0⟩ "B" "S" "BUY" 100 90 120 (1/2) none none none

/-- A flat 15-bar close series: every delta is 0, so from bar 13 on both
the 14-bar average gain and average loss are exactly 0. -/
def flatCloses : List ℚ := List.replicate 15 5

/-- `dfBreak` shifted 100 calendar days later: its one accepted signal
carries a different timestamp than `dfBreak`'s. -/
def dfBreakB : DF :=
  { index := (List.range 40).map fun i => ⟨i + 100, 0⟩,
    close := some ((List.replicate 39 (100 : ℚ)) ++ [150]),
    high := some (List.replicate 40 (100 : ℚ)),
    low := some (List.replicate 40 (100 : ℚ)),
    volume := some (List.replicate 40 (1000 : ℚ)),
    ema50 := none, ema200 := none }

/-- The empty frame (an empty DataFrame). -/
def dfEmpty : DF :=
  { index := [], close := some [], high := some [], low := some [],
    volume := some [], ema50 := none, ema200 := none }

/-- A one-bar frame. -/
def dfOne : DF :=
  { index := [⟨0, 0⟩], close := some [100], high := some [100],
    low := some [100], volume := some [1000], ema50 := none, ema200 := none }

/-! ## Proofs -/

section Proofs

attribute [local semireducible] Rat.add Rat.mul Rat.inv Rat.sub Rat.ofScientific

set_option maxRecDepth 100000

/-- Unpacking `validate_signal`: a validated signal satisfies the
risk/reward floor, the side-specific price-level sanity checks, and the
confidence floor. -/
theorem validateSignal_eq_true {m : ℚ} {s : Signal}
    (h : validateSignal m s = true) :
    m ≤ s.riskReward ∧ 0.3 ≤ s.confidence ∧
      (s.side = "BUY" → s.stop < s.entry ∧ s.entry < s.target) ∧
      (s.side ≠ "BUY" → s.target < s.entry ∧ s.entry < s.stop) := by
  unfold validateSignal at h
  split_ifs at h with h1 h2 h3 h4 h5 h6
  · rw [not_or] at h3
    exact ⟨not_lt.mp h1, not_lt.mp h4,
      fun _ => ⟨not_le.mp h3.2, not_le.mp h3.1⟩, fun hn => absurd h2 hn⟩
  · rw [not_or] at h5
    exact ⟨not_lt.mp h1, not_lt.mp h6,
      fun hb => absurd hb h2, fun _ => ⟨not_le.mp h5.1, not_le.mp h5.2⟩⟩

/-- `mkSignal` with the default `risk_reward=None` stores the ratio
computed from its own stored fields. -/
theorem mkSignal_rrInv (dt : DT) (sy st sd : String) (e stp t c : ℚ)
    (vr a : Option ℚ) :
    (mkSignal dt sy st sd e stp t c vr a none).riskReward =
      signalRiskReward (mkSignal dt sy st sd e stp t c vr a none).side
        (mkSignal dt sy st sd e stp t c vr a none).entry
        (mkSignal dt sy st sd e stp t c vr a none).stop
        (mkSignal dt sy st sd e stp t c vr a none).target := rfl

/-- Membership in `dedupAux` output implies membership in the input. -/
theorem mem_dedupAux {l : List Signal}
    {seen : List (String × String × Nat)} {s : Signal}
    (h : s ∈ dedupAux l seen) : s ∈ l := by
  induction l generalizing seen with
  | nil => simp [dedupAux] at h
  | cons a rest ih =>
    unfold dedupAux at h
    split at h
    · exact List.mem_cons_of_mem _ (ih h)
    · rcases List.mem_cons.mp h with h | h
      · simp [h]
      · exact List.mem_cons_of_mem _ (ih h)

/-- Membership in the golden-cross scan output: the signal is validated
and is the candidate built at some event bar of the enriched frame. -/
theorem mem_goldenCrossScan {df : DF} {sym : String} {s : Signal}
    (h : s ∈ (goldenCrossScan df sym).2) :
    validateSignal 2 s = true ∧
      ∃ i ∈ goldenEvents (goldenFrame df),
        goldenCandidate (goldenFrame df) sym i = s := by
  unfold goldenCrossScan at h
  split at h
  · simp at h
  · simp only [List.mem_filter, List.mem_map] at h
    obtain ⟨⟨i, hi, hc⟩, hv⟩ := h
    exact ⟨hv, i, hi, hc⟩

/-- Membership in the breakout scan output: the signal is validated and is
the candidate built at some event bar. -/
theorem mem_breakoutScan {df : DF} {sym : String} {s : Signal}
    (h : s ∈ breakoutScan df sym) :
    validateSignal 2 s = true ∧
      ∃ i ∈ breakoutEvents df, breakoutCandidate df sym i = s := by
  unfold breakoutScan at h
  split at h
  · simp at h
  · split at h
    · simp at h
    · simp only [List.mem_filter, List.mem_map] at h
      obtain ⟨⟨i, hi, hc⟩, hv⟩ := h
      exact ⟨hv, i, hi, hc⟩

/-- Every signal in a single-asset scan output is validated, is a BUY,
carries the cleaned symbol, and stores the risk/reward of its own price
fields. -/
theorem mem_scanSingleStock {df : DF} {sym : String} {s : Signal}
    (h : s ∈ scanSingleStock df sym) :
    validateSignal 2 s = true ∧ s.side = "BUY" ∧
      s.symbol = cleanSymbol sym ∧
      s.riskReward = signalRiskReward s.side s.entry s.stop s.target := by
  simp only [scanSingleStock, dedupSignals] at h
  rcases List.mem_append.mp (mem_dedupAux h) with hg | hb
  · obtain ⟨hv, i, _, hc⟩ := mem_goldenCrossScan hg
    refine ⟨hv, ?_, ?_, ?_⟩ <;> rw [← hc] <;> rfl
  · obtain ⟨hv, i, _, hc⟩ := mem_breakoutScan hb
    refine ⟨hv, ?_, ?_, ?_⟩ <;> rw [← hc] <;> rfl

/-- Every signal in a multi-asset scan output comes from one asset's
single-asset scan. -/
theorem mem_scanMultipleStocks {sd : List (String × DF)} {s : Signal}
    (h : s ∈ scanMultipleStocks sd) :
    ∃ p ∈ sd, s ∈ scanSingleStock p.2 p.1 := by
  unfold scanMultipleStocks at h
  have h' := (List.perm_insertionSort dateDesc _).mem_iff.mp h
  obtain ⟨ls, hls, hsl⟩ := List.mem_flatten.mp h'
  obtain ⟨p, hp, hpe⟩ := List.mem_map.mp hls
  exact ⟨p, hp, hpe ▸ hsl⟩

/-- The concrete breakout frame scans to exactly the one expected
signal. -/
theorem scanBreak_eq : scanSingleStock dfBreak "TCS" = [sigBreak] := by decide

/-- The expected signal is in the concrete scan output. -/
theorem sigBreak_mem : sigBreak ∈ scanSingleStock dfBreak "TCS" := by
  rw [scanBreak_eq]; exact List.mem_singleton.mpr rfl

/-- C1: every signal returned by a strategy scan — and hence by any
scanner run — satisfies the shared validation: risk/reward at least the
configured minimum 2.0, stop < entry < target for BUY (target < entry <
stop for SELL), and confidence at least 0.3; violating candidates are
absent from the returned lists. -/
theorem scan_signal_validation :
    (∀ df sym s,
        s ∈ (goldenCrossScan df sym).2 ∨ s ∈ breakoutScan df sym ∨
          s ∈ scanSingleStock df sym →
        2 ≤ s.riskReward ∧ 0.3 ≤ s.confidence ∧
          (s.side = "BUY" → s.stop < s.entry ∧ s.entry < s.target) ∧
          (s.side = "SELL" → s.target < s.entry ∧ s.entry < s.stop)) ∧
    (∀ sd s, s ∈ scanMultipleStocks sd →
        2 ≤ s.riskReward ∧ 0.3 ≤ s.confidence ∧
          (s.side = "BUY" → s.stop < s.entry ∧ s.entry < s.target) ∧
          (s.side = "SELL" → s.target < s.entry ∧ s.entry < s.stop)) := by
  have key : ∀ s : Signal, validateSignal 2 s = true →
      2 ≤ s.riskReward ∧ 0.3 ≤ s.confidence ∧
        (s.side = "BUY" → s.stop < s.entry ∧ s.entry < s.target) ∧
        (s.side = "SELL" → s.target < s.entry ∧ s.entry < s.stop) := by
    intro s hv
    obtain ⟨h1, h2, h3, h4⟩ := validateSignal_eq_true hv
    refine ⟨h1, h2, h3, fun hs => h4 ?_⟩
    rw [hs]; decide
  constructor
  · rintro df sym s (hg | hb | hs)
    · exact key s (mem_goldenCrossScan hg).1
    · exact key s (mem_breakoutScan hb).1
    · exact key s (mem_scanSingleStock hs).1
  · intro sd s hm
    obtain ⟨p, _, hp⟩ := mem_scanMultipleStocks hm
    exact key s (mem_scanSingleStock hp).1

/-- C1 witness: the concrete breakout signal is in a scan output and
satisfies all the validation conditions. -/
theorem scan_signal_validation_witness :
    sigBreak ∈ scanSingleStock dfBreak "TCS" ∧
      2 ≤ sigBreak.riskReward ∧ 0.3 ≤ sigBreak.confidence ∧
        (sigBreak.side = "BUY" →
          sigBreak.stop < sigBreak.entry ∧ sigBreak.entry < sigBreak.target) ∧
        (sigBreak.side = "SELL" →
          sigBreak.target < sigBreak.entry ∧ sigBreak.entry < sigBreak.stop) :=
  ⟨sigBreak_mem,
    scan_signal_validation.1 dfBreak "TCS" sigBreak (Or.inr (Or.inr sigBreak_mem))⟩

/-- C2: a `Signal` constructed with the default `risk_reward=None` (as at
every construction site in the repository) stores the side-specific
reward/risk ratio — for BUY risk `|entry-stop|` and reward
`|target-entry|`, for any other side risk `|stop-entry|` and reward
`|entry-target|`, ratio 0 when the risk is 0 — and every signal a scan
emits satisfies this invariant of its own stored fields. -/
theorem signal_riskReward_formula :
    (∀ (dt : DT) (sy st sd : String) (e stp t c : ℚ) (vr a : Option ℚ),
        (sd = "BUY" →
          (|e - stp| = 0 →
            (mkSignal dt sy st sd e stp t c vr a none).riskReward = 0) ∧
          (|e - stp| ≠ 0 →
            (mkSignal dt sy st sd e stp t c vr a none).riskReward =
              |t - e| / |e - stp|)) ∧
        (sd ≠ "BUY" →
          (|stp - e| = 0 →
            (mkSignal dt sy st sd e stp t c vr a none).riskReward = 0) ∧
          (|stp - e| ≠ 0 →
            (mkSignal dt sy st sd e stp t c vr a none).riskReward =
              |e - t| / |stp - e|))) ∧
    (∀ df sym s, s ∈ scanSingleStock df sym →
        s.riskReward = signalRiskReward s.side s.entry s.stop s.target) := by
  constructor
  · intro dt sy st sd e stp t c vr a
    constructor
    · intro hsd
      simp only [mkSignal, Option.getD, signalRiskReward, if_pos hsd]
      constructor
      · intro h0
        rw [if_neg]; rw [h0]; exact lt_irrefl 0
      · intro h0
        rw [if_pos]
        exact lt_of_le_of_ne (abs_nonneg _) (Ne.symm h0)
    · intro hsd
      simp only [mkSignal, Option.getD, signalRiskReward, if_neg hsd]
      constructor
      · intro h0
        rw [if_neg]; rw [h0]; exact lt_irrefl 0
      · intro h0
        rw [if_pos]
        exact lt_of_le_of_ne (abs_nonneg _) (Ne.symm h0)
  · exact fun df sym s hs => (mem_scanSingleStock hs).2.2.2

/-- C2 witness: the concrete scanned signal satisfies the stored-field
risk/reward invariant. -/
theorem signal_riskReward_formula_witness :
    sigBreak ∈ scanSingleStock dfBreak "TCS" ∧
      sigBreak.riskReward =
        signalRiskReward sigBreak.side sigBreak.entry sigBreak.stop
          sigBreak.target :=
  ⟨sigBreak_mem, signal_riskReward_formula.2 dfBreak "TCS" sigBreak sigBreak_mem⟩

/-- C9: for every frame with fewer than 2 bars (including the empty one)
the backtester returns the empty metrics object; the function is total,
so no failure escapes. -/
theorem backtester_short_series_empty (df : DF) (h : df.len < 2) :
    calculateSimpleReturns df = none := by
  unfold calculateSimpleReturns
  rw [if_pos (Or.inl h)]

/-- C9 witness: the empty frame and a one-bar frame both yield the empty
metrics object. -/
theorem backtester_short_series_empty_witness :
    (dfEmpty.len < 2 ∧ calculateSimpleReturns dfEmpty = none) ∧
      (dfOne.len < 2 ∧ calculateSimpleReturns dfOne = none) :=
  ⟨⟨by decide, backtester_short_series_empty dfEmpty (by decide)⟩,
    ⟨by decide, backtester_short_series_empty dfOne (by decide)⟩⟩

/-- C10: every signal produced by the shipped strategy set (GoldenCross
and SimpleBreakout, i.e. every single-asset scan and every multi-asset
scanner run) has side "BUY"; no SELL signal is ever emitted. -/
theorem all_signals_buy :
    (∀ df sym s, s ∈ scanSingleStock df sym → s.side = "BUY") ∧
    (∀ sd s, s ∈ scanMultipleStocks sd → s.side = "BUY") := by
  constructor
  · exact fun df sym s hs => (mem_scanSingleStock hs).2.1
  · intro sd s hm
    obtain ⟨p, _, hp⟩ := mem_scanMultipleStocks hm
    exact (mem_scanSingleStock hp).2.1

/-- C10 witness: the concrete scanned signal is a BUY. -/
theorem all_signals_buy_witness :
    sigBreak ∈ scanSingleStock dfBreak "TCS" ∧ sigBreak.side = "BUY" :=
  ⟨sigBreak_mem, all_signals_buy.1 dfBreak "TCS" sigBreak sigBreak_mem⟩

/-- The seen-set dedup loop equals first-occurrence dedup on the input
with already-seen keys removed. -/
theorem dedupAux_eq_keepFirst (l : List Signal) :
    ∀ seen, dedupAux l seen =
      keepFirst (l.filter fun s => decide (keyOf s ∉ seen)) := by
  induction l with
  | nil => intro seen; simp [dedupAux, keepFirst]
  | cons a rest ih =>
    intro seen
    unfold dedupAux
    by_cases ha : keyOf a ∈ seen
    · rw [if_pos ha, List.filter_cons_of_neg (by simp [ha]), ih]
    · rw [if_neg ha, List.filter_cons_of_pos (by simp [ha]), keepFirst,
        List.filter_filter, ih (keyOf a :: seen)]
      congr 1
      congr 1
      apply List.filter_congr
      intro x _
      simp [List.mem_cons, not_or, Bool.decide_and]

/-- `scan_single_stock`'s dedup is exactly the spec's "keep the first
occurrence in discovery order" dedup. -/
theorem dedupSignals_eq_keepFirst (l : List Signal) :
    dedupSignals l = keepFirst l := by
  unfold dedupSignals
  rw [dedupAux_eq_keepFirst]
  congr 1
  apply (List.filter_eq_self).mpr
  intro x _
  simp

/-- First-occurrence dedup output is a sublist of its input. -/
theorem keepFirst_sublist (l : List Signal) : List.Sublist (keepFirst l) l := by
  induction l using keepFirst.induct with
  | case1 => simp [keepFirst]
  | case2 s rest ih =>
    rw [keepFirst]
    exact (ih.trans (List.filter_sublist _)).cons₂ s

/-- First-occurrence dedup output has pairwise-distinct keys. -/
theorem keepFirst_pairwise (l : List Signal) :
    (keepFirst l).Pairwise fun s t => keyOf s ≠ keyOf t := by
  induction l using keepFirst.induct with
  | case1 => simp [keepFirst]
  | case2 s rest ih =>
    rw [keepFirst]
    refine List.Pairwise.cons ?_ ih
    intro t ht
    have ht' := (keepFirst_sublist _).subset ht
    have := (List.mem_filter.mp ht').2
    simp only [decide_eq_true_eq] at this
    exact fun h => this h.symm

/-- A single-asset scan output has pairwise-distinct dedup keys. -/
theorem scanSingleStock_keys_nodup (df : DF) (sym : String) :
    ((scanSingleStock df sym).map keyOf).Nodup := by
  show ((scanSingleStock df sym).map keyOf).Pairwise (· ≠ ·)
  refine List.pairwise_map.mpr ?_
  show (scanSingleStock df sym).Pairwise fun s t => keyOf s ≠ keyOf t
  unfold scanSingleStock
  rw [dedupSignals_eq_keepFirst]
  exact keepFirst_pairwise _

/-- Every dedup key in a multi-asset merge carries the clean symbol of
one of the scanned assets. -/
theorem flatten_keys_symbol {sd : List (String × DF)}
    {k : String × String × Nat}
    (h : k ∈ ((sd.map fun p => scanSingleStock p.2 p.1).flatten.map keyOf)) :
    ∃ q ∈ sd, k.1 = cleanSymbol q.1 := by
  obtain ⟨s, hs, hk⟩ := List.mem_map.mp h
  obtain ⟨ls, hls, hsl⟩ := List.mem_flatten.mp hs
  obtain ⟨p, hp, hpe⟩ := List.mem_map.mp hls
  refine ⟨p, hp, ?_⟩
  rw [← hk]
  exact (mem_scanSingleStock (hpe ▸ hsl)).2.2.1

/-- C3 (amended): per-asset dedup holds exactly as specified — the seen-set
loop keeps the first occurrence in discovery order, and no two signals of a
single-asset scan share a key — and a multi-asset scanner run has
pairwise-distinct keys provided distinct input symbols stay distinct after
cleaning (`.NS`-stripping and upper-casing).  Without that proviso
duplicates survive across assets (see the counterexample). -/
theorem scanner_dedup :
    (∀ l, dedupSignals l = keepFirst l) ∧
    (∀ df sym, ((scanSingleStock df sym).map keyOf).Nodup) ∧
    (∀ sd : List (String × DF),
        (sd.map fun p => cleanSymbol p.1).Nodup →
        ((scanMultipleStocks sd).map keyOf).Nodup) := by
  refine ⟨dedupSignals_eq_keepFirst, scanSingleStock_keys_nodup, ?_⟩
  intro sd hsd
  have hperm : List.Perm ((scanMultipleStocks sd).map keyOf)
      ((sd.map fun p => scanSingleStock p.2 p.1).flatten.map keyOf) :=
    (List.perm_insertionSort dateDesc _).map keyOf
  rw [hperm.nodup_iff]
  clear hperm
  induction sd with
  | nil => simp
  | cons p rest ih =>
    rw [List.map_cons] at hsd
    have hcons := List.nodup_cons.mp hsd
    simp only [List.map_cons, List.flatten_cons, List.map_append]
    refine List.Nodup.append (scanSingleStock_keys_nodup _ _) (ih hcons.2) ?_
    intro k hk1 hk2
    have h1 : k.1 = cleanSymbol p.1 := by
      obtain ⟨s, hs, hkk⟩ := List.mem_map.mp hk1
      rw [← hkk]
      exact (mem_scanSingleStock hs).2.2.1
    obtain ⟨q, hq, h2⟩ := flatten_keys_symbol hk2
    refine hcons.1 ?_
    rw [h1.symm.trans h2]
    exact List.mem_map_of_mem _ hq

/-- C3 counterexample: scanning "TCS" and "TCS.NS" — distinct dict keys
that clean to the same symbol — in one scanner run yields two signals
sharing the dedup key (asset, setup, calendar day): the claimed invariant
fails on this run. -/
theorem scanner_dedup_counterexample :
    ¬ ((scanMultipleStocks [("TCS", dfBreak), ("TCS.NS", dfBreak)]).map
        keyOf).Nodup := by decide

/-- C3 witness: with two symbols that stay distinct after cleaning, a
concrete scanner run has pairwise-distinct keys. -/
theorem scanner_dedup_witness :
    (([("TCS", dfBreak), ("INFY", dfBreak)].map
        fun p => cleanSymbol p.1).Nodup) ∧
      ((scanMultipleStocks [("TCS", dfBreak), ("INFY", dfBreak)]).map
        keyOf).Nodup :=
  ⟨by decide, scanner_dedup.2.2 [("TCS", dfBreak), ("INFY", dfBreak)] (by decide)⟩

/-- The grouping fold keeps group keys pairwise distinct and every signal
inside the group of its own symbol. -/
theorem foldl_insertGroup_inv (l : List Signal) :
    ∀ acc : List (String × List Signal),
      (acc.map Prod.fst).Nodup →
      (∀ p ∈ acc, ∀ s ∈ p.2, s.symbol = p.1) →
      ((l.foldl insertGroup acc).map Prod.fst).Nodup ∧
        ∀ p ∈ l.foldl insertGroup acc, ∀ s ∈ p.2, s.symbol = p.1 := by
  induction l with
  | nil => exact fun acc h1 h2 => ⟨h1, h2⟩
  | cons a rest ih =>
    intro acc h1 h2
    rw [List.foldl_cons]
    apply ih
    · unfold insertGroup
      split
      · have : ((acc.map fun p =>
            if p.1 = a.symbol then (p.1, p.2 ++ [a]) else p).map Prod.fst) =
            acc.map Prod.fst := by
          rw [List.map_map]
          apply List.map_congr_left
          intro p _
          by_cases hp : p.1 = a.symbol <;> simp [hp]
        rw [this]
        exact h1
      · rename_i hany
        rw [List.map_append]
        refine List.Nodup.append h1 (by simp) ?_
        intro x hx
        obtain ⟨p, hp, hpE⟩ := List.mem_map.mp hx
        simp only [List.map_cons, List.map_nil, List.mem_singleton]
        intro hxs
        refine hany ?_
        rw [List.any_eq_true]
        exact ⟨p, hp, by rw [decide_eq_true_eq, hpE, hxs]⟩
    · unfold insertGroup
      split
      · intro p hp s hs
        obtain ⟨q, hq, hqe⟩ := List.mem_map.mp hp
        by_cases hqs : q.1 = a.symbol
        · rw [if_pos hqs] at hqe
          rw [← hqe] at hs ⊢
          rcases List.mem_append.mp hs with h | h
          · exact h2 q hq s h
          · rw [List.mem_singleton.mp h, hqs]
        · rw [if_neg hqs] at hqe
          rw [← hqe] at hs ⊢
          exact h2 q hq s hs
      · intro p hp s hs
        rcases List.mem_append.mp hp with h | h
        · exact h2 p h s hs
        · rw [List.mem_singleton.mp h] at hs ⊢
          rw [List.mem_singleton.mp hs]

/-- Concatenating the capped per-symbol groups yields at most `k` signals
for any one symbol. -/
theorem group_sum_bound (k : Nat) (sym : String) :
    ∀ G : List (String × List Signal),
      (G.map Prod.fst).Nodup →
      (∀ p ∈ G, ∀ s ∈ p.2, s.symbol = p.1) →
      ((G.map fun p =>
          (List.insertionSort confRRDesc p.2).take k).flatten).countP
        (fun s => decide (s.symbol = sym)) ≤ k := by
  intro G
  induction G with
  | nil => simp
  | cons p rest ih =>
    intro hnodup hcont
    rw [List.map_cons, List.flatten_cons, List.countP_append]
    rw [List.map_cons] at hnodup
    have hkey := List.nodup_cons.mp hnodup
    have htail := ih hkey.2 fun q hq => hcont q (List.mem_cons_of_mem _ hq)
    have hmem : ∀ s ∈ (List.insertionSort confRRDesc p.2).take k,
        s.symbol = p.1 := by
      intro s hs
      have hs1 := List.mem_of_mem_take hs
      have hs2 := (List.perm_insertionSort confRRDesc p.2).mem_iff.mp hs1
      exact hcont p (List.mem_cons_self _ _) s hs2
    by_cases hps : p.1 = sym
    · have hrest0 : ((rest.map fun p =>
          (List.insertionSort confRRDesc p.2).take k).flatten).countP
          (fun s => decide (s.symbol = sym)) = 0 := by
        rw [List.countP_eq_zero]
        intro s hs
        obtain ⟨ls, hls, hsl⟩ := List.mem_flatten.mp hs
        obtain ⟨q, hq, hqe⟩ := List.mem_map.mp hls
        have hsq : s.symbol = q.1 := by
          have hs1 := List.mem_of_mem_take (hqe ▸ hsl)
          have hs2 := (List.perm_insertionSort confRRDesc q.2).mem_iff.mp hs1
          exact hcont q (List.mem_cons_of_mem _ hq) s hs2
        simp only [decide_eq_true_eq]
        intro hss
        refine hkey.1 ?_
        have hpq : p.1 = q.1 := by rw [hps, ← hss, hsq]
        rw [hpq]
        exact List.mem_map_of_mem _ hq
      have hhead : ((List.insertionSort confRRDesc p.2).take k).countP
          (fun s => decide (s.symbol = sym)) ≤ k :=
        le_trans (List.countP_le_length _)
          (le_trans (List.length_take_le _ _) le_rfl)
      omega
    · have hhead0 : ((List.insertionSort confRRDesc p.2).take k).countP
          (fun s => decide (s.symbol = sym)) = 0 := by
        rw [List.countP_eq_zero]
        intro s hs
        simp only [decide_eq_true_eq]
        rw [hmem s hs]
        exact hps
      omega

/-- C4 (amended): the filter/ranker emits at most `max_per_asset` signals
for any one asset.  The output sequence is, however, not invariant under
permutations of the input: ranking ties keep input order through the
stable sorts, so reordering tied signals reorders the output (see the
counterexample). -/
theorem filter_ranker_cap (signals : List Signal) (minC minRR : ℚ)
    (k : Nat) (sym : String) :
    (filterSignals signals minC minRR k).countP
      (fun s => decide (s.symbol = sym)) ≤ k := by
  unfold filterSignals
  rw [(List.perm_insertionSort confDesc _).countP_eq]
  have hinv := foldl_insertGroup_inv
    (signals.filter fun s =>
      decide (s.confidence ≥ minC ∧ s.riskReward ≥ minRR)) [] (by simp)
    (by simp)
  exact group_sum_bound k sym _ hinv.1 hinv.2

/-- C4 counterexample: two tied signals for different assets pass the
filter; swapping their input order swaps the output sequence, so the
output is not invariant under input permutations. -/
theorem filter_ranker_counterexample :
    List.Perm [sigB, sigA] [sigA, sigB] ∧
      filterSignals [sigA, sigB] 0.5 1.5 2 ≠
        filterSignals [sigB, sigA] 0.5 1.5 2 := by
  constructor
  · decide
  · decide

/-- When both EMA columns are present, lines 25-28 of
`GoldenCrossStrategy.scan` assign nothing and the frame is unchanged. -/
theorem goldenFrame_of_enriched {df : DF} (h50 : df.ema50 ≠ none)
    (h200 : df.ema200 ≠ none) : goldenFrame df = df := by
  simp only [goldenFrame]
  rw [if_neg h50, if_neg h200]

/-- C5: on an enriched frame, GoldenCross emits exactly one candidate per
qualifying event: the event bars are pairwise distinct, bar `i` qualifies
iff `i ≥ 200`, `i` is in range, `EMA50[i] > EMA200[i]` and
`EMA50[i-1] ≤ EMA200[i-1]`, the scan output is the per-event candidate
list filtered by validation, and any frame of fewer than 200 bars scans
to the empty list. -/
theorem golden_cross_events (df : DF) (sym : String) (e50 e200 : List ℚ)
    (hc : df.close ≠ none) (h50 : df.ema50 = some e50)
    (h200 : df.ema200 = some e200) (i : Nat) :
    (df.len < 200 → (goldenCrossScan df sym).2 = []) ∧
    (200 ≤ df.len →
      (goldenCrossScan df sym).2 =
        ((goldenEvents df).map (goldenCandidate df sym)).filter
          (validateSignal 2)) ∧
    (goldenEvents df).Nodup ∧
    (i ∈ goldenEvents df ↔
      i < df.len ∧ 200 ≤ i ∧
        e200.getD i 0 < e50.getD i 0 ∧
        e50.getD (i - 1) 0 ≤ e200.getD (i - 1) 0) := by
  have henr : goldenFrame df = df :=
    goldenFrame_of_enriched (by rw [h50]; exact Option.some_ne_none _)
      (by rw [h200]; exact Option.some_ne_none _)
  refine ⟨?_, ?_, ?_, ?_⟩
  · intro hlen
    unfold goldenCrossScan
    rw [if_pos (Or.inr hlen)]
  · intro hlen
    unfold goldenCrossScan
    rw [if_neg ?_, henr]
    rintro (h | h)
    · exact hc h
    · exact absurd hlen (not_le.mpr h)
  · exact (List.nodup_range _).filter _
  · unfold goldenEvents goldenCrossAt
    rw [h50, h200]
    simp only [List.mem_filter, List.mem_range, Bool.and_eq_true,
      decide_eq_true_eq, Option.getD_some, gt_iff_lt]

/-- C5 witness: the crossing frame `dfGolden` qualifies exactly at bar
200. -/
theorem golden_cross_events_witness :
    (dfGolden.close ≠ none ∧
      dfGolden.ema50 = some ((List.replicate 200 (1 : ℚ)) ++ [3]) ∧
      dfGolden.ema200 = some (List.replicate 201 (2 : ℚ))) ∧
      (200 ∈ goldenEvents dfGolden ↔
        200 < dfGolden.len ∧ 200 ≤ 200 ∧
          (List.replicate 201 (2 : ℚ)).getD 200 0 <
            ((List.replicate 200 (1 : ℚ)) ++ [3]).getD 200 0 ∧
          ((List.replicate 200 (1 : ℚ)) ++ [3]).getD (200 - 1) 0 ≤
            (List.replicate 201 (2 : ℚ)).getD (200 - 1) 0) :=
  ⟨⟨by decide, rfl, rfl⟩,
    (golden_cross_events dfGolden "X" _ _ (by decide) rfl rfl 200).2.2.2⟩

/-- A golden-cross scan that proceeds without an `ema_50` column hands
back a frame that differs from its input. -/
theorem goldenScan_mutates {df : DF} {sym : String} (hc : df.close ≠ none)
    (hlen : ¬ df.len < 200) (h50 : df.ema50 = none) :
    (goldenCrossScan df sym).1 ≠ df := by
  have key : (goldenCrossScan df sym).1.ema50 =
      some (ewmMean 50 (df.close.getD [])) := by
    unfold goldenCrossScan
    rw [if_neg ?_]
    · simp only [goldenFrame]
      rw [if_pos h50]
      split
      · rfl
      · rfl
    · rintro (h | h)
      · exact hc h
      · exact hlen h
  intro h
  rw [h, h50] at key
  exact Option.noConfusion key

/-- C6 (amended): each strategy scan is a deterministic function of
(frame, symbol), and `SimpleBreakoutStrategy.scan` performs no column
assignment at all; but `GoldenCrossStrategy.scan` leaves the caller's
frame unchanged only when both EMA columns are already present (as on
enriched frames) — when it proceeds on a frame missing `ema_50`, it
mutates the caller's frame by writing the EMA columns into it. -/
theorem scan_frame_effects (df : DF) (sym : String) :
    ((goldenCrossScan df sym).1 = df ∨
      (goldenCrossScan df sym).1 = goldenFrame df) ∧
    (df.ema50 ≠ none → df.ema200 ≠ none →
      (goldenCrossScan df sym).1 = df) ∧
    (df.close ≠ none → ¬ df.len < 200 → df.ema50 = none →
      (goldenCrossScan df sym).1 ≠ df) := by
  refine ⟨?_, ?_, fun hc hlen h50 => goldenScan_mutates hc hlen h50⟩
  · unfold goldenCrossScan
    split
    · exact Or.inl rfl
    · exact Or.inr rfl
  · intro h50 h200
    unfold goldenCrossScan
    split
    · rfl
    · exact goldenFrame_of_enriched h50 h200

/-- C6 counterexample: on a 200-bar frame with a Close column and no EMA
columns, GoldenCross's scan hands back a modified frame — the input frame
is not left unchanged. -/
theorem scan_frame_effects_counterexample :
    (goldenCrossScan df200 "X").1 ≠ df200 :=
  goldenScan_mutates (by decide) (by decide) (by decide)

/-- C6 witness: on the enriched frame `dfGolden` the scan returns the
frame unchanged. -/
theorem scan_frame_effects_witness :
    (dfGolden.ema50 ≠ none ∧ dfGolden.ema200 ≠ none) ∧
      (goldenCrossScan dfGolden "X").1 = dfGolden :=
  ⟨⟨by decide, by decide⟩,
    (scan_frame_effects dfGolden "X").2.1 (by decide) (by decide)⟩

/-- The date ordering used by the final merge sort is total. -/
theorem dtLeP_total (a b : DT) : dtLeP a b ∨ dtLeP b a := by
  unfold dtLeP; omega

/-- The date ordering used by the final merge sort is transitive. -/
theorem dtLeP_trans {a b c : DT} (h1 : dtLeP a b) (h2 : dtLeP b c) :
    dtLeP a c := by
  unfold dtLeP at h1 h2 ⊢; omega

instance : IsTotal Signal dateDesc :=
  ⟨fun s t => (dtLeP_total t.date s.date).elim Or.inl Or.inr⟩

instance : IsTrans Signal dateDesc :=
  ⟨fun _ _ _ hab hbc => dtLeP_trans hbc hab⟩

/-- Strictly-later-date ordering on signals. -/
def dateDescStrict (s t : Signal) : Prop :=
  t.date.day < s.date.day ∨
    (t.date.day = s.date.day ∧ t.date.tod < s.date.tod)

instance : IsAntisymm Signal dateDescStrict :=
  ⟨fun _ _ h1 h2 => by unfold dateDescStrict at h1 h2; omega⟩

/-- A date-sorted chain with pairwise-distinct dates is strictly
sorted. -/
theorem pairwise_dateDescStrict {l : List Signal}
    (hs : l.Pairwise dateDesc) (hn : (l.map Signal.date).Nodup) :
    l.Pairwise dateDescStrict := by
  have hne : l.Pairwise fun s t => s.date ≠ t.date := List.pairwise_map.mp hn
  refine (hs.and hne).imp ?_
  rintro s t ⟨hle, hd⟩
  rcases hle with h | ⟨hday, htod⟩
  · exact Or.inl h
  · refine Or.inr ⟨hday, lt_of_le_of_ne htod fun htt => hd ?_⟩
    have h1 : s.date = t.date := by
      cases hsd : s.date with
      | mk d1 t1 =>
        cases htd : t.date with
        | mk d2 t2 =>
          rw [hsd, htd] at hday htod htt
          simp only at hday htt
          rw [DT.mk.injEq]
          omega
    exact h1

/-- C7 (amended): the multi-asset output is always a permutation of the
same signal multiset sorted by timestamp descending, and it is independent
of task completion order whenever no two emitted signals share a
timestamp; when timestamps tie across assets, ties keep completion order,
so the output sequence does depend on completion order (see the
counterexample), and the sort key is the timestamp only. -/
theorem scan_order_determinism (sd1 sd2 : List (String × DF))
    (hperm : List.Perm sd1 sd2) :
    List.Perm (scanMultipleStocks sd1) (scanMultipleStocks sd2) ∧
    (scanMultipleStocks sd1).Pairwise dateDesc ∧
    (((scanMultipleStocks sd1).map Signal.date).Nodup →
      scanMultipleStocks sd1 = scanMultipleStocks sd2) := by
  have hp : List.Perm (scanMultipleStocks sd1) (scanMultipleStocks sd2) := by
    unfold scanMultipleStocks
    refine (List.perm_insertionSort dateDesc _).trans
      (List.Perm.trans ((hperm.map _).flatten)
        (List.perm_insertionSort dateDesc _).symm)
  have hs1 : (scanMultipleStocks sd1).Pairwise dateDesc :=
    List.sorted_insertionSort dateDesc _
  have hs2 : (scanMultipleStocks sd2).Pairwise dateDesc :=
    List.sorted_insertionSort dateDesc _
  refine ⟨hp, hs1, fun hn1 => ?_⟩
  have hn2 : ((scanMultipleStocks sd2).map Signal.date).Nodup :=
    (hp.map Signal.date).nodup_iff.mp hn1
  exact List.eq_of_perm_of_sorted hp
    (pairwise_dateDescStrict hs1 hn1) (pairwise_dateDescStrict hs2 hn2)

/-- C7 counterexample: two assets whose signals share a timestamp: the two
completion orders give different output sequences, so the final order is
not independent of completion order. -/
theorem scan_order_counterexample :
    List.Perm [("AAA", dfBreak), ("BBB", dfBreak)]
        [("BBB", dfBreak), ("AAA", dfBreak)] ∧
      scanMultipleStocks [("AAA", dfBreak), ("BBB", dfBreak)] ≠
        scanMultipleStocks [("BBB", dfBreak), ("AAA", dfBreak)] :=
  ⟨by decide, by decide⟩

/-- C7 witness: with distinct signal timestamps, swapping completion
order leaves the output sequence unchanged. -/
theorem scan_order_determinism_witness :
    List.Perm [("TCS", dfBreak), ("INFY", dfBreakB)]
        [("INFY", dfBreakB), ("TCS", dfBreak)] ∧
      ((scanMultipleStocks [("TCS", dfBreak), ("INFY", dfBreakB)]).map
        Signal.date).Nodup ∧
      scanMultipleStocks [("TCS", dfBreak), ("INFY", dfBreakB)] =
        scanMultipleStocks [("INFY", dfBreakB), ("TCS", dfBreak)] :=
  ⟨by decide, by decide,
    (scan_order_determinism [("TCS", dfBreak), ("INFY", dfBreakB)]
      [("INFY", dfBreakB), ("TCS", dfBreak)] (by decide)).2.2 (by decide)⟩

/-! ### RSI lemmas -/

theorem getD_of_lt {β : Type} (l : List β) (d : β) {n : Nat}
    (h : n < l.length) : l.getD n d = l[n] := by
  rw [List.getD_eq_getElem?_getD, List.getElem?_eq_getElem h, Option.getD_some]

theorem length_closeDelta (c : List ℚ) : (closeDelta c).length = c.length := by
  simp [closeDelta]

theorem length_rollingMean (w : Nat) (xs : List ℚ) :
    (rollingMean w xs).length = xs.length := by
  simp [rollingMean]

theorem length_gainSeries (c : List ℚ) :
    (gainSeries c).length = c.length := by
  simp [gainSeries, length_rollingMean, length_closeDelta]

theorem length_lossSeries (c : List ℚ) :
    (lossSeries c).length = c.length := by
  simp [lossSeries, length_rollingMean, length_closeDelta]

theorem length_rsSeries (c : List ℚ) : (rsSeries c).length = c.length := by
  simp [rsSeries, length_gainSeries, length_lossSeries]

theorem length_rsiSeries (c : List ℚ) :
    (rsiSeries c).length = c.length := by
  simp [rsiSeries, length_rsSeries]

/-- The RSI cell at a valid index is `100 - 100/(1 + gain/loss)` in the
embedded float arithmetic. -/
theorem rsi_formula (c : List ℚ) {i : Nat} (h : i < c.length) :
    (rsiSeries c).getD i FV.nan =
      fvSub (FV.fin 100) (fvDiv (FV.fin 100) (fvAdd (FV.fin 1)
        (fvDiv ((gainSeries c).getD i FV.nan)
          ((lossSeries c).getD i FV.nan)))) := by
  have h1 : i < (rsiSeries c).length := by rw [length_rsiSeries]; exact h
  have h2 : i < (rsSeries c).length := by rw [length_rsSeries]; exact h
  have h3 : i < (gainSeries c).length := by rw [length_gainSeries]; exact h
  have h4 : i < (lossSeries c).length := by rw [length_lossSeries]; exact h
  rw [getD_of_lt _ _ h1, getD_of_lt _ _ h3, getD_of_lt _ _ h4]
  unfold rsiSeries
  rw [List.getElem_map]
  unfold rsSeries
  rw [List.getElem_zipWith]

/-- The rolling-mean cell at a valid index: NaN until the window fills,
then the window mean. -/
theorem rollingMean_getD (w : Nat) (xs : List ℚ) {i : Nat}
    (h : i < xs.length) :
    (rollingMean w xs).getD i FV.nan =
      if i + 1 < w then FV.nan
      else FV.fin (listMean (slice xs (i + 1 - w) (i + 1))) := by
  have h1 : i < (rollingMean w xs).length := by
    rw [length_rollingMean]; exact h
  rw [getD_of_lt _ _ h1]
  unfold rollingMean
  rw [List.getElem_map, List.getElem_range]

/-- When the average loss is exactly 0 and the average gain is positive,
the embedded float pipeline yields RSI = 100 (via `rs = +inf`), with no
division fault. -/
theorem rsi_of_extremes {c : List ℚ} {i : Nat} {g : ℚ} (h : i < c.length)
    (hl : (lossSeries c).getD i FV.nan = FV.fin 0)
    (hg : (gainSeries c).getD i FV.nan = FV.fin g) (hgp : 0 < g) :
    (rsiSeries c).getD i FV.nan = FV.fin 100 := by
  rw [rsi_formula c h, hl, hg]
  have e1 : fvDiv (FV.fin g) (FV.fin 0) = FV.inf := by
    simp [fvDiv, hgp]
  rw [e1]
  norm_num [fvAdd, fvDiv, fvSub]

theorem gainCell_nonneg (v : FV) : 0 ≤ gainCell v := by
  cases v with
  | fin q =>
    rw [gainCell]
    split
    · exact le_of_lt (by assumption)
    · exact le_refl 0
  | nan => exact le_refl 0
  | inf => exact le_refl 0
  | ninf => exact le_refl 0

/-- All masked-gain cells are nonnegative. -/
theorem gainMask_nonneg {c : List ℚ} {x : ℚ}
    (hx : x ∈ (closeDelta c).map gainCell) : 0 ≤ x := by
  obtain ⟨v, _, hv⟩ := List.mem_map.mp hx
  rw [← hv]
  exact gainCell_nonneg v

/-- On a strictly increasing close series every masked-loss cell is 0. -/
theorem lossMask_zero {c : List ℚ}
    (hmono : ∀ j, j + 1 < c.length → c.getD j 0 < c.getD (j + 1) 0) :
    ∀ x ∈ (closeDelta c).map lossCell, x = 0 := by
  intro x hx
  obtain ⟨v, hv, hvx⟩ := List.mem_map.mp hx
  unfold closeDelta at hv
  obtain ⟨j, hj, hjv⟩ := List.mem_map.mp hv
  rw [← hvx, ← hjv]
  by_cases hj0 : j = 0
  · simp [hj0, lossCell]
  · rw [if_neg hj0]
    have hj1 : j - 1 + 1 = j := Nat.succ_pred_eq_of_pos (Nat.pos_of_ne_zero hj0)
    have hjr : j < c.length := List.mem_range.mp hj
    have hlt : c.getD (j - 1) 0 < c.getD j 0 := by
      have := hmono (j - 1) (by omega)
      rwa [hj1] at this
    rw [lossCell]
    rw [if_neg (by linarith)]

/-- On a strictly increasing close series the masked-gain cell at any
bar `j ≥ 1` is strictly positive. -/
theorem gainMask_getD_pos {c : List ℚ}
    (hmono : ∀ j, j + 1 < c.length → c.getD j 0 < c.getD (j + 1) 0)
    {j : Nat} (hj0 : j ≠ 0) (hj : j < c.length) :
    0 < ((closeDelta c).map gainCell).getD j 0 := by
  have hd : j < (closeDelta c).length := by rw [length_closeDelta]; exact hj
  have hm : j < ((closeDelta c).map gainCell).length := by
    rw [List.length_map]; exact hd
  rw [getD_of_lt _ _ hm, List.getElem_map]
  have e : (closeDelta c)[j] =
      FV.fin (c.getD j 0 - c.getD (j - 1) 0) := by
    unfold closeDelta
    rw [List.getElem_map, List.getElem_range, if_neg hj0]
  rw [e]
  have hj1 : j - 1 + 1 = j := Nat.succ_pred_eq_of_pos (Nat.pos_of_ne_zero hj0)
  have hlt : c.getD (j - 1) 0 < c.getD j 0 := by
    have := hmono (j - 1) (by omega)
    rwa [hj1] at this
  rw [gainCell]
  rw [if_pos (by linarith)]
  linarith

/-- A list element at a position inside `[lo, hi)` is in the slice. -/
theorem getD_mem_slice {l : List ℚ} {lo hi i : Nat} (hlo : lo ≤ i)
    (hhi : i < hi) (h : i < l.length) : l.getD i 0 ∈ slice l lo hi := by
  rw [getD_of_lt _ _ h]
  unfold slice
  have h3 : lo + (i - lo) < (l.take hi).length := by
    rw [List.length_take]; omega
  have e1 := @List.getElem_drop' ℚ (l.take hi) lo (i - lo) h3
  have e2 : (l.take hi)[lo + (i - lo)] = l[i] := by
    have hidx : lo + (i - lo) = i := by omega
    rw [List.getElem_take]
    congr 1
  rw [← e2, e1]
  exact List.getElem_mem _

theorem slice_length {l : List ℚ} {lo hi : Nat} (hhi : hi ≤ l.length)
    (hlo : lo ≤ hi) : (slice l lo hi).length = hi - lo := by
  unfold slice
  rw [List.length_drop, List.length_take]
  omega

/-- On a strictly increasing close series with at least 14 bars past the
window, the 14-bar average loss is exactly 0 at every computed index. -/
theorem lossSeries_increasing {c : List ℚ}
    (hmono : ∀ j, j + 1 < c.length → c.getD j 0 < c.getD (j + 1) 0)
    {i : Nat} (h13 : 13 ≤ i) (h : i < c.length) :
    (lossSeries c).getD i FV.nan = FV.fin 0 := by
  unfold lossSeries
  rw [rollingMean_getD 14 _ (by rw [List.length_map, length_closeDelta]; exact h)]
  rw [if_neg (by omega)]
  congr 1
  unfold listMean
  have hz : (slice ((closeDelta c).map lossCell) (i + 1 - 14) (i + 1)).sum = 0 := by
    apply List.sum_eq_zero
    intro x hx
    have hx' : x ∈ (closeDelta c).map lossCell := by
      unfold slice at hx
      exact List.mem_of_mem_take (List.mem_of_mem_drop hx)
    exact lossMask_zero hmono x hx'
  rw [hz, zero_div]

/-- On a strictly increasing close series the 14-bar average gain is
strictly positive at every computed index. -/
theorem gainSeries_increasing {c : List ℚ}
    (hmono : ∀ j, j + 1 < c.length → c.getD j 0 < c.getD (j + 1) 0)
    {i : Nat} (h13 : 13 ≤ i) (h : i < c.length) :
    ∃ g : ℚ, (gainSeries c).getD i FV.nan = FV.fin g ∧ 0 < g := by
  unfold gainSeries
  have hml : i < ((closeDelta c).map gainCell).length := by
    rw [List.length_map, length_closeDelta]; exact h
  rw [rollingMean_getD 14 _ hml, if_neg (by omega)]
  refine ⟨_, rfl, ?_⟩
  unfold listMean
  set mg := (closeDelta c).map gainCell with hmg
  have hlen : (slice mg (i + 1 - 14) (i + 1)).length = 14 := by
    rw [slice_length (by rw [hmg, List.length_map, length_closeDelta]; omega)
      (by omega)]
    omega
  apply div_pos
  · have hmem : mg.getD i 0 ∈ slice mg (i + 1 - 14) (i + 1) :=
      getD_mem_slice (by omega) (by omega) hml
    have hnn : ∀ x ∈ slice mg (i + 1 - 14) (i + 1), 0 ≤ x := by
      intro x hx
      have hx' : x ∈ (closeDelta c).map gainCell := by
        unfold slice at hx
        rw [hmg] at hx
        exact List.mem_of_mem_take (List.mem_of_mem_drop hx)
      exact gainMask_nonneg hx'
    have hpos : 0 < mg.getD i 0 := gainMask_getD_pos hmono (by omega) h
    calc (0 : ℚ) < mg.getD i 0 := hpos
      _ ≤ (slice mg (i + 1 - 14) (i + 1)).sum :=
        List.single_le_sum hnn _ hmem
  · rw [hlen]
    norm_num

/-- C8 (amended): the RSI pipeline is total — division by a zero average
loss raises no fault — and when the 14-bar average loss is 0 with a
positive 14-bar average gain, RSI is exactly 100; in particular on a
strictly increasing close series every computed RSI value is 100.  When
both averages are 0 (a flat window) RSI is NaN, not 100 (see the
counterexample). -/
theorem rsi_extreme_values :
    (∀ (c : List ℚ) (i : Nat) (g : ℚ), i < c.length →
        (lossSeries c).getD i FV.nan = FV.fin 0 →
        (gainSeries c).getD i FV.nan = FV.fin g → 0 < g →
        (rsiSeries c).getD i FV.nan = FV.fin 100) ∧
    (∀ c : List ℚ,
        (∀ j, j + 1 < c.length → c.getD j 0 < c.getD (j + 1) 0) →
        ∀ i, 13 ≤ i → i < c.length →
        (rsiSeries c).getD i FV.nan = FV.fin 100) := by
  refine ⟨fun c i g h hl hg hgp => rsi_of_extremes h hl hg hgp, ?_⟩
  intro c hmono i h13 h
  obtain ⟨g, hg, hgp⟩ := gainSeries_increasing hmono h13 h
  exact rsi_of_extremes h (lossSeries_increasing hmono h13 h) hg hgp

/-- C8 counterexample: on a flat 15-bar series the 14-bar average loss at
bar 13 is 0, yet RSI there is NaN (`0/0`), not the extreme value 100. -/
theorem rsi_extreme_values_counterexample :
    (lossSeries flatCloses).getD 13 FV.nan = FV.fin 0 ∧
      (rsiSeries flatCloses).getD 13 FV.nan = FV.nan ∧
      FV.nan ≠ FV.fin 100 :=
  ⟨by decide, by decide, by decide⟩

/-- C8 witness: on the increasing series 1..16, bar 13 has average loss 0
and positive average gain, and RSI is 100. -/
theorem rsi_extreme_values_witness :
    13 < ([1, 2, 3, 4, 5, 6, 7, 8, 9, 10, 11, 12, 13, 14, 15, 16] :
        List ℚ).length ∧
      (lossSeries [1, 2, 3, 4, 5, 6, 7, 8, 9, 10, 11, 12, 13, 14, 15, 16]).getD
        13 FV.nan = FV.fin 0 ∧
      (gainSeries [1, 2, 3, 4, 5, 6, 7, 8, 9, 10, 11, 12, 13, 14, 15, 16]).getD
        13 FV.nan = FV.fin (13/14) ∧
      (rsiSeries [1, 2, 3, 4, 5, 6, 7, 8, 9, 10, 11, 12, 13, 14, 15, 16]).getD
        13 FV.nan = FV.fin 100 :=
  ⟨by decide, by decide, by decide,
    rsi_extreme_values.1 [1, 2, 3, 4, 5, 6, 7, 8, 9, 10, 11, 12, 13, 14, 15, 16]
      13 (13/14) (by decide) (by decide) (by decide) (by decide)⟩

end Proofs

end Nifty
